import Mathlib

/-!
Verification of the SimpleHTTP core (src/src/simplehttp.hpp) against its
natural-language specification.  The C++ classes `internal::Buffer`, `Request`,
`Response`, `internal::ConnectionState` and the `Server` member functions
`DeserializeRequest`, `ProcessRequest`, `ProcessFunction` and the per-event
dispatch of `Serve` are shallowly embedded as pure Lean functions.  Byte
strings are `List Char`, machine `int` cursors are `Nat`/`Int` with the
source's explicit bound checks, and C++ exceptions are explicit result
constructors.
-/

set_option maxRecDepth 20000

namespace SimpleHTTP

/-- Byte strings: the source stores all payloads in `std::string`. -/
abbrev Str := List Char

/-! ## internal::Buffer (simplehttp.hpp lines 577-737) -/

/-- Model of `internal::Buffer`: a growable character sequence plus a head
cursor and a rollback cursor.  In the source both cursors are `int` fields
initialised to 0 and only ever assigned in-range non-negative values, so they
are carried as `Nat` here; the signed comparisons of `set`/`increment` are
reproduced on `Int` below. -/
structure Buffer where
  buffer : Str := []
  headCursor : Nat := 0
  rollbackCursor : Nat := 0
deriving Repr, DecidableEq

/-- Operator `=` : assigns a new string and resets both cursors. -/
def Buffer.assign (_ : Buffer) (other : Str) : Buffer :=
  { buffer := other, headCursor := 0, rollbackCursor := 0 }

/-- Operator `+=` : appends to the string, cursors unchanged. -/
def Buffer.append (b : Buffer) (other : Str) : Buffer :=
  { b with buffer := b.buffer ++ other }

/-- Member `current()`: `buffer[headCursor]` (C++ `operator[]` at
`size()` reads the terminating NUL, modelled by the default). -/
def Buffer.current (b : Buffer) : Char :=
  b.buffer.getD b.headCursor (Char.ofNat 0)

/-- Member `next()`: increments the head cursor and returns the character at
the new position; if `headCursor + 1` is not strictly inside the buffer it
returns `nullopt` and leaves the cursor unchanged. -/
def Buffer.next (b : Buffer) : Option Char × Buffer :=
  if h : b.headCursor + 1 < b.buffer.length then
    (some (b.buffer.get ⟨b.headCursor + 1, h⟩), { b with headCursor := b.headCursor + 1 })
  else
    (none, b)

/-- Member `rollback()`: head cursor back to the latest commit. -/
def Buffer.rollback (b : Buffer) : Buffer :=
  { b with headCursor := b.rollbackCursor }

/-- Member `commit()`: rollback cursor := head cursor. -/
def Buffer.commit (b : Buffer) : Buffer :=
  { b with rollbackCursor := b.headCursor }

/-- Member `reset()`: head cursor := 0.  The rollback cursor is left
untouched by the source. -/
def Buffer.reset (b : Buffer) : Buffer :=
  { b with headCursor := 0 }

/-- Member `set(int newpos)`: head cursor := newpos when `0 <= newpos <
size()`, otherwise unchanged; the returned flag is the C++ return value. -/
def Buffer.set (b : Buffer) (newpos : Int) : Bool × Buffer :=
  if newpos < (b.buffer.length : Int) ∧ 0 ≤ newpos then
    (true, { b with headCursor := newpos.toNat })
  else
    (false, b)

/-- Member `increment(int update)`: head cursor moved by `update` when the
result stays in `[0, size())`, otherwise unchanged. -/
def Buffer.increment (b : Buffer) (update : Int) : Bool × Buffer :=
  let nextCursor : Int := (b.headCursor : Int) + update
  if nextCursor < (b.buffer.length : Int) ∧ 0 ≤ nextCursor then
    (true, { b with headCursor := nextCursor.toNat })
  else
    (false, b)

/-- Member `empty()`. -/
def Buffer.emptyb (b : Buffer) : Bool :=
  b.buffer.isEmpty

/-- Member `size()`. -/
def Buffer.size (b : Buffer) : Nat :=
  b.buffer.length

/-- Member `cstrAfterCursor()`: the byte slice from the head cursor. -/
def Buffer.cstrAfterCursor (b : Buffer) : Str :=
  b.buffer.drop b.headCursor

/-- Member `sizeAfterCursor()`: `size() - headCursor`. -/
def Buffer.sizeAfterCursor (b : Buffer) : Nat :=
  b.buffer.length - b.headCursor

/-- Member `sizeBeforeCursor()`: the head cursor position. -/
def Buffer.sizeBeforeCursor (b : Buffer) : Nat :=
  b.headCursor

/-- The default-constructed buffer (empty string, both cursors 0). -/
def Buffer.init : Buffer := {}

/-! ### The public-operation alphabet of the buffer, for invariant claims -/

/-- One public buffer operation, as enumerated by the spec's invariant claim:
assign, append, next, rollback, commit, reset, set, increment. -/
inductive BufOp where
  | assign (s : Str)
  | append (s : Str)
  | next
  | rollback
  | commit
  | reset
  | set (newpos : Int)
  | increment (update : Int)
deriving Repr, DecidableEq

/-- Applies one public operation to a buffer (results of `next`/`set`/
`increment` are discarded, only the state effect is kept). -/
def applyOp (b : Buffer) : BufOp → Buffer
  | .assign s => b.assign s
  | .append s => b.append s
  | .next => (b.next).2
  | .rollback => b.rollback
  | .commit => b.commit
  | .reset => b.reset
  | .set n => (b.set n).2
  | .increment n => (b.increment n).2

/-- Applies a sequence of public operations from left to right. -/
def applyOps (b : Buffer) (ops : List BufOp) : Buffer :=
  ops.foldl applyOp b

/-- The cursor invariant claimed by the spec:
`0 ≤ rollback ≤ head ≤ len` (the lower bound is vacuous for `Nat`). -/
def bufferInv (b : Buffer) : Prop :=
  b.rollbackCursor ≤ b.headCursor ∧ b.headCursor ≤ b.buffer.length

instance (b : Buffer) : Decidable (bufferInv b) := by
  unfold bufferInv; infer_instance

/-- The weaker invariant that every operation does preserve: both cursors
stay within `[0, len]`. -/
def bufferWeakInv (b : Buffer) : Prop :=
  b.rollbackCursor ≤ b.buffer.length ∧ b.headCursor ≤ b.buffer.length

instance (b : Buffer) : Decidable (bufferWeakInv b) := by
  unfold bufferWeakInv; infer_instance

/-- Marks the operations that never move the head cursor below the rollback
cursor: assign, append, next, rollback and commit (exactly the operations the
request parser uses). -/
def BufOp.cursorMonotone : BufOp → Prop
  | .assign _ => True
  | .append _ => True
  | .next => True
  | .rollback => True
  | .commit => True
  | .reset => False
  | .set _ => False
  | .increment _ => False

instance (op : BufOp) : Decidable op.cursorMonotone := by
  cases op <;> (unfold BufOp.cursorMonotone; infer_instance)

/-! ## Request and Response objects -/

/-- Lookup in an association-list model of `std::unordered_map<string,string>`
(insertion order is irrelevant to every claim; lookups are the observable). -/
def assocLookup (m : List (Str × Str)) (k : Str) : Option Str :=
  match m with
  | [] => none
  | (k1, v1) :: rest => if k1 = k then some v1 else assocLookup rest k

/-- Model of `map[key] = value`: replaces the value of an existing key,
otherwise inserts a fresh entry. -/
def assocSet (m : List (Str × Str)) (k v : Str) : List (Str × Str) :=
  match m with
  | [] => [(k, v)]
  | (k1, v1) :: rest =>
      if k1 = k then (k1, v) :: rest else (k1, v1) :: assocSet rest k v

/-- Model of the `Request` class: method ("type" in the source), path, version
and the header map.  Empty strings mean "not yet parsed". -/
structure Request where
  type : Str := []
  path : Str := []
  version : Str := []
  headers : List (Str × Str) := []
deriving Repr, DecidableEq

def Request.setType (r : Request) (newtype : Str) : Request :=
  { r with type := newtype }

def Request.setPath (r : Request) (newpath : Str) : Request :=
  { r with path := newpath }

def Request.setVersion (r : Request) (newversion : Str) : Request :=
  { r with version := newversion }

def Request.setHeader (r : Request) (key value : Str) : Request :=
  { r with headers := assocSet r.headers key value }

/-- Member `Request::getHeader(key)`: the source body is `return headers[key];`.
`unordered_map::operator[]` returns the mapped value when the key exists and
otherwise value-initialises (empty string) and INSERTS the entry, so the
lookup mutates the request; the returned pair is (result, mutated request). -/
def Request.getHeader (r : Request) (key : Str) : Str × Request :=
  match assocLookup r.headers key with
  | some v => (v, r)
  | none => ([], { r with headers := r.headers ++ [(key, [])] })

/-- The default-constructed request. -/
def Request.init : Request := {}

/-- Model of the `Response` class with the source's field defaults. -/
structure Response where
  version : Str := "HTTP/1.1".toList
  statusCode : Nat := 200
  statusReason : Str := "OK".toList
  headers : List (Str × Str) := []
  body : Str := []
deriving Repr, DecidableEq

def Response.setStatusCode (r : Response) (c : Nat) : Response :=
  { r with statusCode := c }

def Response.setStatusReason (r : Response) (s : Str) : Response :=
  { r with statusReason := s }

def Response.setContentType (r : Response) (s : Str) : Response :=
  { r with headers := assocSet r.headers "Content-Type".toList s }

def Response.setHeader (r : Response) (k v : Str) : Response :=
  { r with headers := assocSet r.headers k v }

/-- Member `setBody`: assigns the body and stamps `Content-Length` with the
decimal byte length. -/
def Response.setBody (r : Response) (newbody : Str) : Response :=
  { r with body := newbody,
           headers := assocSet r.headers "Content-Length".toList
             (Nat.repr newbody.length).toList }

/-- The default-constructed response. -/
def Response.init : Response := {}

/-! ## Server::DeserializeRequest (simplehttp.hpp lines 1600-1721)

The C++ function mutates the buffer and the request through references and
returns `void` both when the header block is finished (commit after the final
newline) and when it runs out of bytes (rollback); a wrong byte after a colon
throws `runtime_error`.  The embedding returns the final buffer/request pair
tagged with which of the three exits was taken; `more` and `complete` are the
same plain `return` in C++, the tag merely names which return statement ran.
The `while (1)` loops advance the head cursor on every iteration, so they are
translated with a fuel argument; every caller passes `buffer.size() + 1`,
which the cursor bound makes sufficient (the fuel-0 branches mirror the
rollback exit and are unreachable from those calls). -/

inductive DesOut where
  | more (buf : Buffer) (req : Request)
  | complete (buf : Buffer) (req : Request)
  | err (buf : Buffer) (req : Request) (msg : Str)
deriving Repr, DecidableEq

/-- The message of the `runtime_error` thrown for a colon not followed by a
space; `to_string(c.value())` in C++ promotes the `char` to `int`, so the
message carries the decimal character code. -/
def colonSpaceErr (c : Char) : Str :=
  "Expected space (' ') character after colon (':'). Got ".toList
    ++ (Nat.repr c.toNat).toList

/-- The method and path loops: read via `next()` accumulating into
`identifier` until a space; on exhaustion roll back (the caller then returns
`more`), on the space commit and hand back the accumulated identifier. -/
def desSimpleField (fuel : Nat) (b : Buffer) (id : Str) :
    Sum Buffer (Buffer × Str) :=
  match fuel with
  | 0 => Sum.inl b.rollback
  | fuel + 1 =>
    match b.next with
    | (none, b1) => Sum.inl b1.rollback
    | (some c, b1) =>
      if c = ' ' then Sum.inr (b1.commit, id)
      else desSimpleField fuel b1 (id ++ [c])

/-- The version loop: like `desSimpleField` but carriage returns are skipped
and the terminator is the newline. -/
def desVersionField (fuel : Nat) (b : Buffer) (id : Str) :
    Sum Buffer (Buffer × Str) :=
  match fuel with
  | 0 => Sum.inl b.rollback
  | fuel + 1 =>
    match b.next with
    | (none, b1) => Sum.inl b1.rollback
    | (some c, b1) =>
      if c = '\r' then desVersionField fuel b1 id
      else if c = '\n' then Sum.inr (b1.commit, id)
      else desVersionField fuel b1 (id ++ [c])

/-- The header value loop: accumulate until newline (carriage returns
skipped); on the newline the caller inserts the header, so the commit happens
here and the value is handed back; on exhaustion roll back. -/
def desValue (fuel : Nat) (b : Buffer) (value : Str) :
    Sum Buffer (Buffer × Str) :=
  match fuel with
  | 0 => Sum.inl b.rollback
  | fuel + 1 =>
    match b.next with
    | (none, b1) => Sum.inl b1.rollback
    | (some c, b1) =>
      if c = '\r' then desValue fuel b1 value
      else if c = '\n' then Sum.inr (b1.commit, value)
      else desValue fuel b1 (value ++ [c])

/-- The header section loop.  Note the faithful translation of the source's
key handling: an ordinary character falls through the `':'` test WITHOUT being
appended to `identifier` (the `identifier += c.value()` statement of the
source sits inside the colon branch, after the value loop, where `c` is the
newline that ended the value), so after each completed header line the loop
continues with `identifier = "\n"`. -/
def desHeaders (fuel : Nat) (b : Buffer) (req : Request) (id : Str) : DesOut :=
  match fuel with
  | 0 => .more b.rollback req
  | fuel + 1 =>
    match b.next with
    | (none, b1) => .more b1.rollback req
    | (some c, b1) =>
      if c = '\r' then desHeaders fuel b1 req id
      else if c = '\n' then .complete b1.commit req
      else if c = ':' then
        match b1.next with
        | (none, b2) => .more b2.rollback req
        | (some c2, b2) =>
          if c2 = ' ' then
            match desValue fuel b2 [] with
            | Sum.inl b3 => .more b3 req
            | Sum.inr (b3, value) =>
                -- inside the value loop the source ran
                -- `setHeader(identifier, value); identifier = ""; commit;`
                -- and after the loop `identifier += c.value()` appends the
                -- terminating newline to the freshly cleared identifier
                desHeaders fuel b3 (req.setHeader id value) ['\n']
          else .err b2 req (colonSpaceErr c2)
      else desHeaders fuel b1 req id

/-- Sections of `DeserializeRequest` after the method: path (skipped when
already parsed), then version, then headers. -/
def desFromVersion (fuel : Nat) (b : Buffer) (req : Request) : DesOut :=
  if req.version = [] then
    match desVersionField fuel b [] with
    | Sum.inl b1 => .more b1 req
    | Sum.inr (b1, id) => desHeaders fuel b1 (req.setVersion id) []
  else desHeaders fuel b req []

def desFromPath (fuel : Nat) (b : Buffer) (req : Request) : DesOut :=
  if req.path = [] then
    match desSimpleField fuel b [] with
    | Sum.inl b1 => .more b1 req
    | Sum.inr (b1, id) => desFromVersion fuel b1 (req.setPath id)
  else desFromVersion fuel b req

/-- Model of `Server::DeserializeRequest(buffer, request)`: parses the
method (when `type` is empty), the path, the version and then the headers,
exactly in the source's order. -/
def DeserializeRequest (b : Buffer) (req : Request) : DesOut :=
  let fuel := b.buffer.length + 1
  if req.type = [] then
    match desSimpleField fuel b [] with
    | Sum.inl b1 => .more b1 req
    | Sum.inr (b1, id) => desFromPath fuel b1 (req.setType id)
  else desFromPath fuel b req

/-! ## Connection state machine (ProcessRequest, ProcessFunction, Serve) -/

/-- The three connection stages of `internal::Stage`. -/
inductive Stage where
  | REQ
  | FUNC
  | RES
deriving Repr, DecidableEq

/-- Model of `internal::ConnectionState` (the owned file descriptor is an OS
resource with no bearing on any claim and is left out). -/
structure ConnectionState where
  stage : Stage := .REQ
  reqBuffer : Buffer := {}
  resBuffer : Buffer := {}
  request : Request := {}
  response : Response := {}
deriving Repr, DecidableEq

/-- A fresh connection as inserted by the accept path of `Serve`. -/
def ConnectionState.init : ConnectionState := {}

/-- The `maxHeaderSize` member constant. -/
def maxHeaderSize : Nat := 8192

/-- The catch block of `ProcessRequest`: 400 Bad Request with the exception
text as body, stage moved to RES. -/
def fail400 (st : ConnectionState) (msg : Str) : ConnectionState :=
  { st with
      response :=
        (((st.response.setStatusCode 400).setStatusReason
            "Bad Request".toList).setContentType "text/plain".toList).setBody msg,
      stage := .RES }

/-- `state.reqBuffer += buffer` after `buffer[n] = '\0'` appends the received
bytes as a C string, so the chunk is cut at the first NUL byte. -/
def cstrChunk (data : Str) : Str :=
  data.takeWhile (fun c => c ≠ Char.ofNat 0)

/-- Model of `Server::ProcessRequest(state)`.  The `recv` loop is driven by
the list of chunks the kernel delivers before reporting `EAGAIN`: each
iteration appends a chunk, runs `DeserializeRequest`, and then fails the
connection with 400 when the parser threw or when `sizeBeforeCursor()`
exceeds `maxHeaderSize` (both via the same catch block); the final `EAGAIN`
returns `true` leaving the state as it is.  Note no branch ever assigns
stage `FUNC`. -/
def ProcessRequest (st : ConnectionState) : List Str → ConnectionState × Bool
  | [] => (st, true)
  | data :: rest =>
    let st1 := { st with reqBuffer := st.reqBuffer.append (cstrChunk data) }
    match DeserializeRequest st1.reqBuffer st1.request with
    | .err b r msg =>
        (fail400 { st1 with reqBuffer := b, request := r } msg, true)
    | .more b r =>
        let st2 := { st1 with reqBuffer := b, request := r }
        if st2.reqBuffer.sizeBeforeCursor > maxHeaderSize then
          (fail400 st2 "Header size exceeds defined maximum size".toList, true)
        else ProcessRequest st2 rest
    | .complete b r =>
        let st2 := { st1 with reqBuffer := b, request := r }
        if st2.reqBuffer.sizeBeforeCursor > maxHeaderSize then
          (fail400 st2 "Header size exceeds defined maximum size".toList, true)
        else ProcessRequest st2 rest

/-- The route table: path ↦ (method ↦ handler).  Handlers are opaque values
of a type parameter; only which branch of `ProcessFunction` runs is
claim-relevant. -/
def RouteMap (H : Type) := List (Str × List (Str × H))

/-- Result of `Server::ProcessFunction`: either a normal return carrying the
updated state and the `bool` return value, or the dereference of an
end-iterator (`routeIter->second` when `find` failed), which is undefined
behaviour in C++ and is made explicit here. -/
inductive FuncResult where
  | normal (st : ConnectionState) (keep : Bool)
  | endIterDeref
deriving Repr, DecidableEq

/-- Lookup in the route table (`unordered_map::find`). -/
def assocLookupR {A : Type} (m : List (Str × A)) (k : Str) : Option A :=
  match m with
  | [] => none
  | (k1, v1) :: rest => if k1 = k then some v1 else assocLookupR rest k

/-- Model of `Server::ProcessFunction(state)`.  The source tests
`routeIter != routeMap.end()` — i.e. the PRESENCE of the path — and then
synthesizes the 404; when the path is absent it falls through to
`routeIter->second`, dereferencing the end iterator. -/
def ProcessFunction {H : Type} (routeMap : RouteMap H)
    (st : ConnectionState) : FuncResult :=
  match assocLookupR routeMap st.request.path with
  | some _ =>
      .normal
        { st with
            response :=
              (((st.response.setStatusCode 404).setStatusReason
                  "Not Found".toList).setContentType "text/plain".toList).setBody
                ("The requested resource ".toList ++ st.request.path
                  ++ " was not found on this server".toList),
            stage := .RES }
        true
  | none => .endIterDeref

/-- Epoll readiness flags of one event, as tested by the dispatch of
`Serve`. -/
structure EpollFlags where
  epollerr : Bool
  epollhup : Bool
  epollin : Bool
  epollout : Bool
deriving Repr, DecidableEq

/-- What the per-event connection dispatch of `Serve` decides to do. -/
inductive EventAction where
  | deregister
  | erase
  | runProcessRequest
  | runProcessResponse
  | idle
deriving Repr, DecidableEq

/-- Model of the connection-event branch of the `Serve` loop body
(simplehttp.hpp lines 1477-1519): unknown descriptors are deregistered,
error/hangup erases the state, and otherwise the dispatch switches on the
stage.  Faithful detail: BOTH the `REQ` case and the `RES` case test
`EPOLLIN` (the source comment above the `RES` test reads "Only process if
EPOLLOUT event is reported", but the code tests `EPOLLIN`). -/
def dispatchConnEvent (conState : Option Stage) (ev : EpollFlags) :
    EventAction :=
  match conState with
  | none => .deregister
  | some stage =>
    if ev.epollerr || ev.epollhup then .erase
    else
      match stage with
      | .REQ => if ev.epollin then .runProcessRequest else .idle
      | .FUNC => .idle
      | .RES => if ev.epollin then .runProcessResponse else .idle

/-! ## Response Date accessors (simplehttp.hpp lines 1012-1044)

`setDate` converts the time point with `gmtime` and formats
`"%a, %d %b %Y %H:%M:%S GMT"` via `put_time`; `getDate` parses the stored
header with `get_time("%a, %d %b %Y %H:%M:%S")` and converts the broken-down
time back with `mktime`.  Time points are modelled as whole seconds since the
epoch (`system_clock::to_time_t`/`from_time_t` are the identity there).  The
libc pieces are modelled after their documented behaviour: `gmtime`/`timegm`
use the proleptic Gregorian calendar (Hinnant's `civil_from_days` /
`days_from_civil`, which is what glibc computes), and `mktime` interprets the
fields as LOCAL time in an environment whose offset from UTC is the explicit
parameter `tzOff` (no daylight saving; the zero-initialised `tm` has
`tm_isdst = 0`). -/

/-- Broken-down time, the fields of `struct tm` that the Date accessors
touch; as in C, `tm_year` counts years since 1900 and `tm_mon` from 0. -/
structure Tm where
  tm_sec : Int := 0
  tm_min : Int := 0
  tm_hour : Int := 0
  tm_mday : Int := 0
  tm_mon : Int := 0
  tm_year : Int := 0
  tm_wday : Int := 0
deriving Repr, DecidableEq

/-- Days since 1970-01-01 to (year, month, day) in the proleptic Gregorian
calendar. -/
def civilFromDays (z0 : Int) : Int × Int × Int :=
  let z := z0 + 719468
  let era := z.fdiv 146097
  let doe := z - era * 146097
  let yoe := (doe - doe.fdiv 1460 + doe.fdiv 36524 - doe.fdiv 146096).fdiv 365
  let y := yoe + era * 400
  let doy := doe - (365 * yoe + yoe.fdiv 4 - yoe.fdiv 100)
  let mp := (5 * doy + 2).fdiv 153
  let d := doy - (153 * mp + 2).fdiv 5 + 1
  let m := mp + (if mp < 10 then 3 else -9)
  (if m ≤ 2 then y + 1 else y, m, d)

/-- Inverse of `civilFromDays`. -/
def daysFromCivil (y0 m d : Int) : Int :=
  let y := if m ≤ 2 then y0 - 1 else y0
  let era := y.fdiv 400
  let yoe := y - era * 400
  let doy := (153 * (m + (if 2 < m then -3 else 9)) + 2).fdiv 5 + d - 1
  let doe := yoe * 365 + yoe.fdiv 4 - yoe.fdiv 100 + doy
  era * 146097 + doe - 719468

/-- Model of `gmtime`: seconds since the epoch to broken-down UTC time
(1970-01-01 was a Thursday, `tm_wday = 4`). -/
def gmtimeModel (t : Int) : Tm :=
  let days := t.fdiv 86400
  let rem := t - days * 86400
  let ymd := civilFromDays days
  { tm_sec := rem.emod 60
    tm_min := (rem.fdiv 60).emod 60
    tm_hour := rem.fdiv 3600
    tm_mday := ymd.2.2
    tm_mon := ymd.2.1 - 1
    tm_year := ymd.1 - 1900
    tm_wday := (days + 4).emod 7 }

/-- Model of `timegm`: broken-down UTC time back to seconds since the
epoch. -/
def timegmModel (tm : Tm) : Int :=
  daysFromCivil (tm.tm_year + 1900) (tm.tm_mon + 1) tm.tm_mday * 86400
    + tm.tm_hour * 3600 + tm.tm_min * 60 + tm.tm_sec

/-- Model of `mktime` in an environment whose local time is UTC + `tzOff`
seconds (no daylight saving): the fields are interpreted as local time, so
the epoch value is their UTC interpretation minus the offset. -/
def mktimeModel (tzOff : Int) (tm : Tm) : Int :=
  timegmModel tm - tzOff

/-- Abbreviated weekday names used by `%a`. -/
def wdayNames : List Str :=
  ["Sun".toList, "Mon".toList, "Tue".toList, "Wed".toList,
   "Thu".toList, "Fri".toList, "Sat".toList]

/-- Abbreviated month names used by `%b`. -/
def monNames : List Str :=
  ["Jan".toList, "Feb".toList, "Mar".toList, "Apr".toList,
   "May".toList, "Jun".toList, "Jul".toList, "Aug".toList,
   "Sep".toList, "Oct".toList, "Nov".toList, "Dec".toList]

/-- Two-digit zero padding, as `put_time` produces for `%d %H %M %S`. -/
def pad2 (n : Int) : Str :=
  if n < 10 then '0' :: (Nat.repr n.toNat).toList else (Nat.repr n.toNat).toList

/-- Model of `put_time(tm, "%a, %d %b %Y %H:%M:%S GMT")`. -/
def putTimeIMF (tm : Tm) : Str :=
  wdayNames.getD tm.tm_wday.toNat [] ++ ", ".toList
    ++ pad2 tm.tm_mday ++ [' ']
    ++ monNames.getD tm.tm_mon.toNat [] ++ [' ']
    ++ (Nat.repr (tm.tm_year + 1900).toNat).toList ++ [' ']
    ++ pad2 tm.tm_hour ++ [':'] ++ pad2 tm.tm_min ++ [':'] ++ pad2 tm.tm_sec
    ++ " GMT".toList

/-- Strips a literal off the front of a string, or fails. -/
def stripLit : Str → Str → Option Str
  | [], s => some s
  | _ :: _, [] => none
  | p :: ps, c :: cs => if p = c then stripLit ps cs else none

/-- Matches one of a list of names, returning its index and the rest. -/
def matchName (names : List Str) (idx : Nat) (s : Str) : Option (Nat × Str) :=
  match names with
  | [] => none
  | n :: rest =>
    match stripLit n s with
    | some s1 => some (idx, s1)
    | none => matchName rest (idx + 1) s

/-- Reads at most `width` leading digits (at least one) as a number. -/
def parseNum : Nat → Str → Nat → Bool → Option (Nat × Str)
  | 0, s, acc, got => if got then some (acc, s) else none
  | _ + 1, [], acc, got => if got then some (acc, []) else none
  | w + 1, c :: cs, acc, got =>
    if c.isDigit then parseNum w cs (acc * 10 + (c.toNat - 48)) true
    else if got then some (acc, c :: cs) else none

/-- Whitespace in a `get_time` format (and before numeric fields) matches any
run of blanks. -/
def skipWs (s : Str) : Str :=
  s.dropWhile (fun c => c = ' ')

/-- Model of `istringstream >> get_time(&tm, "%a, %d %b %Y %H:%M:%S")`:
weekday name, literal comma, day, month name, year, clock time; trailing
input (the " GMT") is left unread; `none` is the `iss.fail()` case. -/
def getTimeIMF (s : Str) : Option Tm :=
  match matchName wdayNames 0 s with
  | none => none
  | some (wd, s1) =>
    match stripLit [','] s1 with
    | none => none
    | some s2 =>
      match parseNum 2 (skipWs s2) 0 false with
      | none => none
      | some (mday, s3) =>
        match matchName monNames 0 (skipWs s3) with
        | none => none
        | some (mon, s4) =>
          match parseNum 4 (skipWs s4) 0 false with
          | none => none
          | some (year, s5) =>
            match parseNum 2 (skipWs s5) 0 false with
            | none => none
            | some (hh, s6) =>
              match stripLit [':'] s6 with
              | none => none
              | some s7 =>
                match parseNum 2 s7 0 false with
                | none => none
                | some (mm, s8) =>
                  match stripLit [':'] s8 with
                  | none => none
                  | some s9 =>
                    match parseNum 2 s9 0 false with
                    | none => none
                    | some (ss, _) =>
                      some { tm_sec := ss, tm_min := mm, tm_hour := hh,
                             tm_mday := mday, tm_mon := mon,
                             tm_year := (year : Int) - 1900, tm_wday := wd }

/-- Member `Response::setDate`: stamps the `Date` header with the GMT
broken-down time in IMF-fixdate format. -/
def Response.setDate (r : Response) (t : Int) : Response :=
  { r with headers := assocSet r.headers "Date".toList (putTimeIMF (gmtimeModel t)) }

/-- Member `Response::getDate` in an environment with UTC offset `tzOff`:
reads the `Date` header, parses it with `get_time`, and converts the fields
with `mktime` (which treats them as local time). -/
def Response.getDate (tzOff : Int) (r : Response) : Option Int :=
  match assocLookup r.headers "Date".toList with
  | none => none
  | some s =>
    match getTimeIMF s with
    | none => none
    | some tm => some (mktimeModel tzOff tm)

/-- Suffix-carrying version of `desSimpleField`. -/
def fastSimpleField (fuel : Nat) (b : Buffer) (suf : Str) (id : Str) :
    Sum Buffer (Buffer × Str × Str) :=
  match fuel with
  | 0 => Sum.inl b.rollback
  | fuel + 1 =>
    match suf with
    | [] => Sum.inl b.rollback
    | c :: rest =>
      let b1 : Buffer := { b with headCursor := b.headCursor + 1 }
      if c = ' ' then Sum.inr (b1.commit, rest, id)
      else fastSimpleField fuel b1 rest (id ++ [c])

/-- Suffix-carrying version of `desVersionField`. -/
def fastVersionField (fuel : Nat) (b : Buffer) (suf : Str) (id : Str) :
    Sum Buffer (Buffer × Str × Str) :=
  match fuel with
  | 0 => Sum.inl b.rollback
  | fuel + 1 =>
    match suf with
    | [] => Sum.inl b.rollback
    | c :: rest =>
      let b1 : Buffer := { b with headCursor := b.headCursor + 1 }
      if c = '\r' then fastVersionField fuel b1 rest id
      else if c = '\n' then Sum.inr (b1.commit, rest, id)
      else fastVersionField fuel b1 rest (id ++ [c])

/-- Suffix-carrying version of `desValue`. -/
def fastValue (fuel : Nat) (b : Buffer) (suf : Str) (value : Str) :
    Sum Buffer (Buffer × Str × Str) :=
  match fuel with
  | 0 => Sum.inl b.rollback
  | fuel + 1 =>
    match suf with
    | [] => Sum.inl b.rollback
    | c :: rest =>
      let b1 : Buffer := { b with headCursor := b.headCursor + 1 }
      if c = '\r' then fastValue fuel b1 rest value
      else if c = '\n' then Sum.inr (b1.commit, rest, value)
      else fastValue fuel b1 rest (value ++ [c])

/-- Suffix-carrying version of `desHeaders`. -/
def fastHeaders (fuel : Nat) (b : Buffer) (suf : Str) (req : Request)
    (id : Str) : DesOut :=
  match fuel with
  | 0 => .more b.rollback req
  | fuel + 1 =>
    match suf with
    | [] => .more b.rollback req
    | c :: rest =>
      let b1 : Buffer := { b with headCursor := b.headCursor + 1 }
      if c = '\r' then fastHeaders fuel b1 rest req id
      else if c = '\n' then .complete b1.commit req
      else if c = ':' then
        match rest with
        | [] => .more b1.rollback req
        | c2 :: rest2 =>
          let b2 : Buffer := { b1 with headCursor := b1.headCursor + 1 }
          if c2 = ' ' then
            match fastValue fuel b2 rest2 [] with
            | Sum.inl b3 => .more b3 req
            | Sum.inr (b3, suf3, value) =>
                fastHeaders fuel b3 suf3 (req.setHeader id value) ['\n']
          else .err b2 req (colonSpaceErr c2)
      else fastHeaders fuel b1 rest req id

/-- Suffix-carrying version of `DeserializeRequest` (with the section
chaining of `desFromPath`/`desFromVersion` inlined in the same order). -/
def FastDeserializeRequest (b : Buffer) (req : Request) : DesOut :=
  let fuel := b.buffer.length + 1
  let suf := b.buffer.drop (b.headCursor + 1)
  let afterVersion := fun (b1 : Buffer) (suf1 : Str) (req1 : Request) =>
    if req1.version = [] then
      match fastVersionField fuel b1 suf1 [] with
      | Sum.inl b2 => DesOut.more b2 req1
      | Sum.inr (b2, suf2, id) => fastHeaders fuel b2 suf2 (req1.setVersion id) []
    else fastHeaders fuel b1 suf1 req1 []
  let afterPath := fun (b1 : Buffer) (suf1 : Str) (req1 : Request) =>
    if req1.path = [] then
      match fastSimpleField fuel b1 suf1 [] with
      | Sum.inl b2 => DesOut.more b2 req1
      | Sum.inr (b2, suf2, id) => afterVersion b2 suf2 (req1.setPath id)
    else afterVersion b1 suf1 req1
  if req.type = [] then
    match fastSimpleField fuel b suf [] with
    | Sum.inl b1 => DesOut.more b1 req
    | Sum.inr (b1, suf1, id) => afterPath b1 suf1 (req.setType id)
  else afterPath b suf req

/-- `ProcessRequest` with the parser replaced by the linear-time
evaluator; used to evaluate the 8-KiB boundary inputs. -/
def FastProcessRequest (st : ConnectionState) : List Str → ConnectionState × Bool
  | [] => (st, true)
  | data :: rest =>
    let st1 := { st with reqBuffer := st.reqBuffer.append (cstrChunk data) }
    match FastDeserializeRequest st1.reqBuffer st1.request with
    | .err b r msg =>
        (fail400 { st1 with reqBuffer := b, request := r } msg, true)
    | .more b r =>
        let st2 := { st1 with reqBuffer := b, request := r }
        if st2.reqBuffer.sizeBeforeCursor > maxHeaderSize then
          (fail400 st2 "Header size exceeds defined maximum size".toList, true)
        else FastProcessRequest st2 rest
    | .complete b r =>
        let st2 := { st1 with reqBuffer := b, request := r }
        if st2.reqBuffer.sizeBeforeCursor > maxHeaderSize then
          (fail400 st2 "Header size exceeds defined maximum size".toList, true)
        else FastProcessRequest st2 rest

/-- A header block of `20 + m` bytes: request line, one header line whose key
is `m` repetitions of `'a'` and whose value is `"b"`, and the terminating
empty line. -/
def blockK (m : Nat) : Str :=
  "GET / HTTP/1.1\n".toList
    ++ (List.replicate m 'a' ++ (": b\n".toList ++ ['\n']))

/-- The request object the parser extracts from `blockK m` (the leading `G`
is skipped by `next()` and the key characters are never accumulated). -/
def reqK : Request :=
  { type := "ET".toList, path := "/".toList, version := "HTTP/1.1".toList,
    headers := [([], ['b'])] }

/-! ## Auxiliary definitions used by the claim theorems -/

/-- Runs `next()` a number of times from a buffer, collecting the returned
characters (after the first exhausted call every further call returns
`nullopt` and is dropped). -/
def nextRun (b : Buffer) : Nat → List Char
  | 0 => []
  | k + 1 =>
    match b.next with
    | (none, _) => []
    | (some c, b1) => c :: nextRun b1 k

/-- The request carried by a parser outcome, whichever exit was taken. -/
def desOutReq : DesOut → Request
  | .more _ r => r
  | .complete _ r => r
  | .err _ r _ => r

/-- A request whose header block is the line `Host: x`. -/
def blockHost : Str := "GET / HTTP/1.1\nHost: x\n\n".toList

/-- First piece of the split-parse counterexample. -/
def c4part1 : Str := "GET / HTTP/1.1\nA: x\n".toList

/-- Second piece of the split-parse counterexample. -/
def c4part2 : Str := "B: y\n\n".toList

/-- The concatenation of the two pieces. -/
def c4whole : Str := "GET / HTTP/1.1\nA: x\nB: y\n\n".toList

/-- What the one-shot parse of `c4whole` extracts. -/
def c4reqOne : Request :=
  { type := "ET".toList, path := "/".toList, version := "HTTP/1.1".toList,
    headers := [([], "x".toList), (['\n'], "y".toList)] }

/-- What the parse of `c4part1` alone extracts. -/
def c4reqMid : Request :=
  { type := "ET".toList, path := "/".toList, version := "HTTP/1.1".toList,
    headers := [([], "x".toList)] }

/-- What the resumed parse extracts after `c4part2` is appended. -/
def c4reqSplit : Request :=
  { type := "ET".toList, path := "/".toList, version := "HTTP/1.1".toList,
    headers := [([], "y".toList)] }

/-- A route table with the handler id 0 registered for GET /ping. -/
def pingRoute : RouteMap Nat := [("/ping".toList, [("GET".toList, 0)])]

/-- A connection in stage FUNC whose parsed request is GET /ping. -/
def pingState : ConnectionState :=
  { stage := .FUNC, request := { type := "GET".toList, path := "/ping".toList } }

/-- A connection in stage FUNC whose parsed request is GET /nope (not
registered). -/
def nopeState : ConnectionState :=
  { stage := .FUNC, request := { type := "GET".toList, path := "/nope".toList } }

/-! ## Lemmas and claim theorems -/

lemma applyOp_weakInv (b : Buffer) (op : BufOp) (h : bufferWeakInv b) :
    bufferWeakInv (applyOp b op) := by
  obtain ⟨h1, h2⟩ := h
  cases op with
  | assign s => simp [applyOp, Buffer.assign, bufferWeakInv]
  | append s =>
      simp only [applyOp, Buffer.append, bufferWeakInv, List.length_append]
      omega
  | next =>
      simp only [applyOp, Buffer.next]
      split
      · simp only [bufferWeakInv]; omega
      · exact ⟨h1, h2⟩
  | rollback =>
      simp only [applyOp, Buffer.rollback, bufferWeakInv]
      exact ⟨h1, h1⟩
  | commit =>
      simp only [applyOp, Buffer.commit, bufferWeakInv]
      exact ⟨h2, h2⟩
  | reset =>
      simp only [applyOp, Buffer.reset, bufferWeakInv]
      omega
  | set n =>
      simp only [applyOp, Buffer.set]
      split
      next hc => simp only [bufferWeakInv]; constructor <;> omega
      next hc => exact ⟨h1, h2⟩
  | increment n =>
      simp only [applyOp, Buffer.increment]
      split
      next hc => simp only [bufferWeakInv]; constructor <;> omega
      next hc => exact ⟨h1, h2⟩

lemma applyOp_inv (b : Buffer) (op : BufOp) (hmono : op.cursorMonotone)
    (h : bufferInv b) : bufferInv (applyOp b op) := by
  obtain ⟨h1, h2⟩ := h
  cases op with
  | assign s => simp [applyOp, Buffer.assign, bufferInv]
  | append s =>
      simp only [applyOp, Buffer.append, bufferInv, List.length_append]
      omega
  | next =>
      simp only [applyOp, Buffer.next]
      split
      · simp only [bufferInv]; omega
      · exact ⟨h1, h2⟩
  | rollback =>
      simp only [applyOp, Buffer.rollback, bufferInv]
      exact ⟨le_refl _, le_trans h1 h2⟩
  | commit =>
      simp only [applyOp, Buffer.commit, bufferInv]
      exact ⟨le_refl _, h2⟩
  | reset => exact absurd hmono (by simp [BufOp.cursorMonotone])
  | set n => exact absurd hmono (by simp [BufOp.cursorMonotone])
  | increment n => exact absurd hmono (by simp [BufOp.cursorMonotone])

lemma applyOps_inv (ops : List BufOp) : ∀ b : Buffer, bufferInv b →
    (∀ op ∈ ops, op.cursorMonotone) → bufferInv (applyOps b ops) := by
  induction ops with
  | nil => intro b hb _; exact hb
  | cons op rest ih =>
      intro b hb hops
      have hstep := applyOp_inv b op (hops op (List.mem_cons_self op rest)) hb
      exact ih (applyOp b op) hstep (fun o ho => hops o (List.mem_cons_of_mem op ho))

lemma applyOps_weakInv (ops : List BufOp) : ∀ b : Buffer, bufferWeakInv b →
    bufferWeakInv (applyOps b ops) := by
  induction ops with
  | nil => intro b hb; exact hb
  | cons op rest ih =>
      intro b hb
      exact ih (applyOp b op) (applyOp_weakInv b op hb)

/-! ## A linear-time evaluator for DeserializeRequest

`Buffer.next` indexes the character list, which costs a full traversal per
call when evaluated in the kernel; within one parser call the head cursor
only moves forward, so the loops can carry the list suffix after the cursor
alongside the buffer.  The `fast*` functions below do exactly that and are
proved extensionally equal to the faithful loops; all concrete evaluations of
`DeserializeRequest`/`ProcessRequest` on large inputs go through them. -/

lemma next_of_drop_nil {b : Buffer}
    (h : b.buffer.drop (b.headCursor + 1) = []) : b.next = (none, b) := by
  have hle := List.drop_eq_nil_iff.mp h
  unfold Buffer.next
  rw [dif_neg]
  omega

lemma next_of_drop_cons {b : Buffer} {c : Char} {rest : Str}
    (h : b.buffer.drop (b.headCursor + 1) = c :: rest) :
    b.next = (some c, { b with headCursor := b.headCursor + 1 })
      ∧ b.buffer.drop (b.headCursor + 1 + 1) = rest := by
  have hlt : b.headCursor + 1 < b.buffer.length := by
    by_contra hnot
    rw [List.drop_eq_nil_iff.mpr (by omega)] at h
    exact absurd h (by simp)
  have hcons := (List.drop_eq_getElem_cons hlt).symm.trans h
  have hget : b.buffer[b.headCursor + 1] = c := (List.cons.injEq _ _ _ _ ▸ hcons).1
  have hrest : b.buffer.drop (b.headCursor + 1 + 1) = rest :=
    (List.cons.injEq _ _ _ _ ▸ hcons).2
  refine ⟨?_, hrest⟩
  unfold Buffer.next
  rw [dif_pos hlt]
  simp [hget]

lemma fastSimpleField_spec (fuel : Nat) : ∀ (b : Buffer) (suf id : Str),
    suf = b.buffer.drop (b.headCursor + 1) →
    fastSimpleField fuel b suf id
      = match desSimpleField fuel b id with
        | Sum.inl b1 => Sum.inl b1
        | Sum.inr (b1, id1) =>
            Sum.inr (b1, b1.buffer.drop (b1.headCursor + 1), id1) := by
  induction fuel with
  | zero => intro b suf id hsuf; simp [fastSimpleField, desSimpleField]
  | succ fuel ih =>
    intro b suf id hsuf
    subst hsuf
    cases hdrop : b.buffer.drop (b.headCursor + 1) with
    | nil =>
        rw [fastSimpleField, desSimpleField, next_of_drop_nil hdrop]
    | cons c rest =>
        obtain ⟨hnext, hrest⟩ := next_of_drop_cons hdrop
        rw [fastSimpleField, desSimpleField, hnext]
        simp only []
        by_cases hc : c = ' '
        · rw [if_pos hc, if_pos hc]
          simp only []
          simp [Buffer.commit, hrest]
        · rw [if_neg hc, if_neg hc]
          exact ih { b with headCursor := b.headCursor + 1 } rest (id ++ [c]) hrest.symm

lemma fastVersionField_spec (fuel : Nat) : ∀ (b : Buffer) (suf id : Str),
    suf = b.buffer.drop (b.headCursor + 1) →
    fastVersionField fuel b suf id
      = match desVersionField fuel b id with
        | Sum.inl b1 => Sum.inl b1
        | Sum.inr (b1, id1) =>
            Sum.inr (b1, b1.buffer.drop (b1.headCursor + 1), id1) := by
  induction fuel with
  | zero => intro b suf id hsuf; simp [fastVersionField, desVersionField]
  | succ fuel ih =>
    intro b suf id hsuf
    subst hsuf
    cases hdrop : b.buffer.drop (b.headCursor + 1) with
    | nil =>
        rw [fastVersionField, desVersionField, next_of_drop_nil hdrop]
    | cons c rest =>
        obtain ⟨hnext, hrest⟩ := next_of_drop_cons hdrop
        rw [fastVersionField, desVersionField, hnext]
        simp only []
        by_cases hr : c = '\r'
        · rw [if_pos hr, if_pos hr]
          exact ih { b with headCursor := b.headCursor + 1 } rest id hrest.symm
        · rw [if_neg hr, if_neg hr]
          by_cases hn : c = '\n'
          · rw [if_pos hn, if_pos hn]
            simp only []
            simp [Buffer.commit, hrest]
          · rw [if_neg hn, if_neg hn]
            exact ih { b with headCursor := b.headCursor + 1 } rest (id ++ [c]) hrest.symm

lemma fastValue_spec (fuel : Nat) : ∀ (b : Buffer) (suf value : Str),
    suf = b.buffer.drop (b.headCursor + 1) →
    fastValue fuel b suf value
      = match desValue fuel b value with
        | Sum.inl b1 => Sum.inl b1
        | Sum.inr (b1, v1) =>
            Sum.inr (b1, b1.buffer.drop (b1.headCursor + 1), v1) := by
  induction fuel with
  | zero => intro b suf value hsuf; simp [fastValue, desValue]
  | succ fuel ih =>
    intro b suf value hsuf
    subst hsuf
    cases hdrop : b.buffer.drop (b.headCursor + 1) with
    | nil =>
        rw [fastValue, desValue, next_of_drop_nil hdrop]
    | cons c rest =>
        obtain ⟨hnext, hrest⟩ := next_of_drop_cons hdrop
        rw [fastValue, desValue, hnext]
        simp only []
        by_cases hr : c = '\r'
        · rw [if_pos hr, if_pos hr]
          exact ih { b with headCursor := b.headCursor + 1 } rest value hrest.symm
        · rw [if_neg hr, if_neg hr]
          by_cases hn : c = '\n'
          · rw [if_pos hn, if_pos hn]
            simp only []
            simp [Buffer.commit, hrest]
          · rw [if_neg hn, if_neg hn]
            exact ih { b with headCursor := b.headCursor + 1 } rest (value ++ [c]) hrest.symm

lemma fastHeaders_cons (fuel : Nat) (b : Buffer) (c : Char) (rest : Str)
    (req : Request) (id : Str) :
    fastHeaders (fuel + 1) b (c :: rest) req id =
      (let b1 : Buffer := { b with headCursor := b.headCursor + 1 }
       if c = '\r' then fastHeaders fuel b1 rest req id
       else if c = '\n' then .complete b1.commit req
       else if c = ':' then
         match rest with
         | [] => .more b1.rollback req
         | c2 :: rest2 =>
           let b2 : Buffer := { b1 with headCursor := b1.headCursor + 1 }
           if c2 = ' ' then
             match fastValue fuel b2 rest2 [] with
             | Sum.inl b3 => .more b3 req
             | Sum.inr (b3, suf3, value) =>
                 fastHeaders fuel b3 suf3 (req.setHeader id value) ['\n']
           else .err b2 req (colonSpaceErr c2)
       else fastHeaders fuel b1 rest req id) := rfl

lemma desHeaders_succ (fuel : Nat) (b : Buffer) (req : Request) (id : Str) :
    desHeaders (fuel + 1) b req id =
      (match b.next with
       | (none, b1) => .more b1.rollback req
       | (some c, b1) =>
         if c = '\r' then desHeaders fuel b1 req id
         else if c = '\n' then .complete b1.commit req
         else if c = ':' then
           match b1.next with
           | (none, b2) => .more b2.rollback req
           | (some c2, b2) =>
             if c2 = ' ' then
               match desValue fuel b2 [] with
               | Sum.inl b3 => .more b3 req
               | Sum.inr (b3, value) =>
                   desHeaders fuel b3 (req.setHeader id value) ['\n']
             else .err b2 req (colonSpaceErr c2)
         else desHeaders fuel b1 req id) := rfl

lemma fastHeaders_spec (fuel : Nat) : ∀ (b : Buffer) (suf : Str)
    (req : Request) (id : Str),
    suf = b.buffer.drop (b.headCursor + 1) →
    fastHeaders fuel b suf req id = desHeaders fuel b req id := by
  induction fuel with
  | zero => intro b suf req id hsuf; simp [fastHeaders, desHeaders]
  | succ fuel ih =>
    intro b suf req id hsuf
    subst hsuf
    cases hdrop : b.buffer.drop (b.headCursor + 1) with
    | nil =>
        rw [fastHeaders, desHeaders, next_of_drop_nil hdrop]
    | cons c rest =>
        obtain ⟨hnext, hrest⟩ := next_of_drop_cons hdrop
        rw [fastHeaders_cons, desHeaders_succ, hnext]
        simp only []
        by_cases hr : c = '\r'
        · rw [if_pos hr, if_pos hr]
          exact ih { b with headCursor := b.headCursor + 1 } rest req id hrest.symm
        · rw [if_neg hr, if_neg hr]
          by_cases hn : c = '\n'
          · rw [if_pos hn, if_pos hn]
          · rw [if_neg hn, if_neg hn]
            by_cases hcol : c = ':'
            · rw [if_pos hcol, if_pos hcol]
              cases hrest2 : rest with
              | nil =>
                  have hsub : ({ b with headCursor := b.headCursor + 1 }
                        : Buffer).buffer.drop
                      (({ b with headCursor := b.headCursor + 1 }
                        : Buffer).headCursor + 1) = [] := by
                    simpa [hrest2] using hrest
                  rw [next_of_drop_nil hsub]
              | cons c2 rest2 =>
                  have hsub : ({ b with headCursor := b.headCursor + 1 }
                        : Buffer).buffer.drop
                      (({ b with headCursor := b.headCursor + 1 }
                        : Buffer).headCursor + 1) = c2 :: rest2 := by
                    simpa [hrest2] using hrest
                  obtain ⟨hnext2, hrest3⟩ := next_of_drop_cons hsub
                  rw [hnext2]
                  simp only []
                  by_cases hsp : c2 = ' '
                  · rw [if_pos hsp, if_pos hsp]
                    rw [fastValue_spec fuel
                      { b with headCursor := b.headCursor + 1 + 1 } rest2 []
                      hrest3.symm]
                    cases hval : desValue fuel
                        { b with headCursor := b.headCursor + 1 + 1 } [] with
                    | inl b3 => rfl
                    | inr p =>
                        obtain ⟨b3, value⟩ := p
                        simp only []
                        exact ih b3 _ (req.setHeader id value) ['\n'] rfl
                  · rw [if_neg hsp, if_neg hsp]
            · rw [if_neg hcol, if_neg hcol]
              exact ih { b with headCursor := b.headCursor + 1 } rest req id hrest.symm

lemma fastFromVersion_spec (fuel : Nat) (b : Buffer) (req : Request) :
    (if req.version = [] then
      match fastVersionField fuel b (b.buffer.drop (b.headCursor + 1)) [] with
      | Sum.inl b2 => DesOut.more b2 req
      | Sum.inr (b2, suf2, id) => fastHeaders fuel b2 suf2 (req.setVersion id) []
     else fastHeaders fuel b (b.buffer.drop (b.headCursor + 1)) req [])
      = desFromVersion fuel b req := by
  unfold desFromVersion
  by_cases hv : req.version = []
  · simp only [hv, if_pos rfl]
    rw [fastVersionField_spec fuel b _ [] rfl]
    cases desVersionField fuel b [] with
    | inl b1 => rfl
    | inr p =>
        obtain ⟨b1, id⟩ := p
        exact fastHeaders_spec fuel b1 _ (req.setVersion id) [] rfl
  · simp only [if_neg hv]
    exact fastHeaders_spec fuel b _ req [] rfl

lemma fastFromPath_spec (fuel : Nat) (b : Buffer) (req : Request) :
    (if req.path = [] then
      match fastSimpleField fuel b (b.buffer.drop (b.headCursor + 1)) [] with
      | Sum.inl b2 => DesOut.more b2 req
      | Sum.inr (b2, suf2, id) =>
          (if (req.setPath id).version = [] then
            match fastVersionField fuel b2 suf2 [] with
            | Sum.inl b3 => DesOut.more b3 (req.setPath id)
            | Sum.inr (b3, suf3, idv) =>
                fastHeaders fuel b3 suf3 ((req.setPath id).setVersion idv) []
           else fastHeaders fuel b2 suf2 (req.setPath id) [])
     else
      (if req.version = [] then
        match fastVersionField fuel b (b.buffer.drop (b.headCursor + 1)) [] with
        | Sum.inl b2 => DesOut.more b2 req
        | Sum.inr (b2, suf2, id) => fastHeaders fuel b2 suf2 (req.setVersion id) []
       else fastHeaders fuel b (b.buffer.drop (b.headCursor + 1)) req []))
      = desFromPath fuel b req := by
  unfold desFromPath
  by_cases hp : req.path = []
  · simp only [hp, if_pos rfl]
    rw [fastSimpleField_spec fuel b _ [] rfl]
    cases desSimpleField fuel b [] with
    | inl b1 => rfl
    | inr p =>
        obtain ⟨b1, id⟩ := p
        exact fastFromVersion_spec fuel b1 (req.setPath id)
  · simp only [if_neg hp]
    exact fastFromVersion_spec fuel b req

/-- The evaluator agrees with the faithful `DeserializeRequest` on every
buffer and request. -/
theorem FastDeserializeRequest_eq (b : Buffer) (req : Request) :
    FastDeserializeRequest b req = DeserializeRequest b req := by
  unfold FastDeserializeRequest DeserializeRequest
  by_cases ht : req.type = []
  · simp only [ht, if_pos rfl]
    rw [fastSimpleField_spec (b.buffer.length + 1) b _ [] rfl]
    cases desSimpleField (b.buffer.length + 1) b [] with
    | inl b1 => rfl
    | inr p =>
        obtain ⟨b1, id⟩ := p
        exact fastFromPath_spec (b.buffer.length + 1) b1 (req.setType id)
  · simp only [if_neg ht]
    exact fastFromPath_spec (b.buffer.length + 1) b req

theorem FastProcessRequest_eq : ∀ (chunks : List Str) (st : ConnectionState),
    FastProcessRequest st chunks = ProcessRequest st chunks := by
  intro chunks
  induction chunks with
  | nil => intro st; rfl
  | cons data rest ih =>
      intro st
      rw [FastProcessRequest, ProcessRequest, FastDeserializeRequest_eq]
      cases DeserializeRequest
          ({ st with reqBuffer := st.reqBuffer.append (cstrChunk data) }).reqBuffer
          ({ st with reqBuffer := st.reqBuffer.append (cstrChunk data) }).request with
      | err b r msg => rfl
      | more b r =>
          simp only []
          split
          · rfl
          · exact ih _
      | complete b r =>
          simp only []
          split
          · rfl
          · exact ih _

/-! ## Symbolic runs of the parser over long inputs

Kernel evaluation cannot unfold an 8-KiB parse (the recursion is as deep as
the input), so the behaviour of the parser on the boundary inputs of the
header-size limit is derived from induction lemmas over the input shape
instead. -/

/-- Running `desSimpleField` over a prefix free of spaces, up to a space:
every prefix character is consumed into the identifier, the space is
consumed and committed. -/
lemma fastSimpleField_run (pre : Str) : ∀ (f : Nat) (b : Buffer) (suf id : Str),
    pre.length < f → (∀ c ∈ pre, c ≠ ' ') →
    fastSimpleField f b (pre ++ ' ' :: suf) id
      = Sum.inr ({ buffer := b.buffer,
                   headCursor := b.headCursor + pre.length + 1,
                   rollbackCursor := b.headCursor + pre.length + 1 },
                 suf, id ++ pre) := by
  induction pre with
  | nil =>
      intro f b suf id hf _
      obtain ⟨f1, rfl⟩ : ∃ f1, f = f1 + 1 := ⟨f - 1, by omega⟩
      rw [List.nil_append, fastSimpleField, if_pos rfl]
      simp [Buffer.commit]
  | cons c pre ih =>
      intro f b suf id hf hmem
      obtain ⟨f1, rfl⟩ : ∃ f1, f = f1 + 1 := ⟨f - 1, by omega⟩
      rw [List.cons_append, fastSimpleField,
        if_neg (hmem c (List.mem_cons_self c pre))]
      rw [ih f1 { b with headCursor := b.headCursor + 1 } suf (id ++ [c])
        (by simpa using hf) (fun c1 hc1 => hmem c1 (List.mem_cons_of_mem c hc1))]
      have h1 : b.headCursor + 1 + pre.length + 1
      = b.headCursor + (c :: pre).length + 1 := by
        simp [List.length_cons]; omega
      have h2 : (id ++ [c]) ++ pre = id ++ c :: pre := by simp
      rw [h1, h2]

/-- Running `desVersionField` over a prefix free of carriage returns and
newlines, up to a newline. -/
lemma fastVersionField_run (pre : Str) : ∀ (f : Nat) (b : Buffer) (suf id : Str),
    pre.length < f → (∀ c ∈ pre, c ≠ '\r' ∧ c ≠ '\n') →
    fastVersionField f b (pre ++ '\n' :: suf) id
      = Sum.inr ({ buffer := b.buffer,
                   headCursor := b.headCursor + pre.length + 1,
                   rollbackCursor := b.headCursor + pre.length + 1 },
                 suf, id ++ pre) := by
  induction pre with
  | nil =>
      intro f b suf id hf _
      obtain ⟨f1, rfl⟩ : ∃ f1, f = f1 + 1 := ⟨f - 1, by omega⟩
      rw [List.nil_append, fastVersionField,
        if_neg (by decide : ¬('\n' : Char) = '\r'), if_pos rfl]
      simp [Buffer.commit]
  | cons c pre ih =>
      intro f b suf id hf hmem
      obtain ⟨f1, rfl⟩ : ∃ f1, f = f1 + 1 := ⟨f - 1, by omega⟩
      obtain ⟨hcr, hnl⟩ := hmem c (List.mem_cons_self c pre)
      rw [List.cons_append, fastVersionField, if_neg hcr, if_neg hnl]
      rw [ih f1 { b with headCursor := b.headCursor + 1 } suf (id ++ [c])
        (by simpa using hf) (fun c1 hc1 => hmem c1 (List.mem_cons_of_mem c hc1))]
      have h1 : b.headCursor + 1 + pre.length + 1
      = b.headCursor + (c :: pre).length + 1 := by
        simp [List.length_cons]; omega
      have h2 : (id ++ [c]) ++ pre = id ++ c :: pre := by simp
      rw [h1, h2]

/-- Running the header loop over a run of `'a'` characters: the source never
appends ordinary characters to the key accumulator, so the run is consumed
with no effect beyond the head cursor (one fuel unit per character). -/
lemma fastHeaders_runA (m : Nat) : ∀ (f : Nat) (b : Buffer) (suf : Str)
    (req : Request) (id : Str), m < f →
    fastHeaders f b (List.replicate m 'a' ++ suf) req id
      = fastHeaders (f - m) { b with headCursor := b.headCursor + m } suf req id := by
  induction m with
  | zero => intro f b suf req id _; simp
  | succ m ih =>
      intro f b suf req id hf
      obtain ⟨f1, rfl⟩ : ∃ f1, f = f1 + 1 := ⟨f - 1, by omega⟩
      rw [List.replicate_succ, List.cons_append, fastHeaders_cons]
      simp only []
      rw [if_neg (by decide : ¬('a' : Char) = '\r'),
        if_neg (by decide : ¬('a' : Char) = '\n'),
        if_neg (by decide : ¬('a' : Char) = ':')]
      rw [ih f1 { b with headCursor := b.headCursor + 1 } suf req id (by omega)]
      have h1 : b.headCursor + 1 + m = b.headCursor + (m + 1) := by omega
      have h2 : f1 + 1 - (m + 1) = f1 - m := by omega
      rw [h1, h2]

lemma blockK_length (m : Nat) : (blockK m).length = 20 + m := by
  simp [blockK]; omega

/-- The concrete tail `": b\n\n"` of the single header line: the colon is
followed by the mandatory space, the value `"b"` is read up to the newline
and committed, and the following empty line completes the header block. -/
lemma fastHeaders_tailK (b : Buffer) (req : Request) (id : Str) :
    fastHeaders 21 b [':', ' ', 'b', '\n', '\n'] req id
      = .complete { buffer := b.buffer, headCursor := b.headCursor + 5,
                    rollbackCursor := b.headCursor + 5 } (req.setHeader id ['b']) := by
  rw [show (21 : Nat) = 20 + 1 from rfl, fastHeaders_cons]
  simp only []
  rw [if_neg (by decide : ¬(':' : Char) = '\r'),
      if_neg (by decide : ¬(':' : Char) = '\n')]
  rw [if_pos trivial, if_pos trivial]
  rw [show (20 : Nat) = 19 + 1 from rfl, fastValue]
  simp only []
  rw [if_neg (by decide : ¬('b' : Char) = '\r'),
      if_neg (by decide : ¬('b' : Char) = '\n')]
  rw [show (19 : Nat) = 18 + 1 from rfl, fastValue]
  simp only []
  rw [if_neg (by decide : ¬('\n' : Char) = '\r'), if_pos trivial]
  simp only [Buffer.commit]
  rw [fastHeaders_cons]
  simp only []
  rw [if_neg (by decide : ¬('\n' : Char) = '\r'), if_pos trivial]
  simp only [Buffer.commit, List.nil_append]

/-- The full parse of `blockK m` from a fresh buffer: the head cursor ends on
the final newline, at position `19 + m` (one less than the block length,
because `next()` never visits index 0). -/
lemma fastDes_blockK (m : Nat) :
    FastDeserializeRequest { buffer := blockK m } {}
      = .complete { buffer := blockK m, headCursor := 19 + m,
                    rollbackCursor := 19 + m } reqK := by
  have hlen := blockK_length m
  have hdrop : List.drop (0 + 1) (blockK m)
      = ['E', 'T'] ++ ' ' :: (['/'] ++ ' ' :: ("HTTP/1.1".toList ++ '\n' ::
          (List.replicate m 'a' ++ (':' :: ' ' :: 'b' :: '\n' :: '\n' :: [])))) := rfl
  have h1 : fastSimpleField (20 + m + 1)
      { buffer := blockK m, headCursor := 0, rollbackCursor := 0 }
      (List.drop (0 + 1) (blockK m)) []
      = Sum.inr ({ buffer := blockK m, headCursor := 3, rollbackCursor := 3 },
          ['/'] ++ ' ' :: ("HTTP/1.1".toList ++ '\n' ::
            (List.replicate m 'a' ++ (':' :: ' ' :: 'b' :: '\n' :: '\n' :: []))),
          ['E', 'T']) := by
    rw [hdrop, fastSimpleField_run ['E', 'T'] (20 + m + 1) _ _ []
      (by have hl : (['E', 'T'] : Str).length = 2 := rfl; omega) (by decide)]
    norm_num
  have h2 : fastSimpleField (20 + m + 1)
      { buffer := blockK m, headCursor := 3, rollbackCursor := 3 }
      (['/'] ++ ' ' :: ("HTTP/1.1".toList ++ '\n' ::
        (List.replicate m 'a' ++ (':' :: ' ' :: 'b' :: '\n' :: '\n' :: [])))) []
      = Sum.inr ({ buffer := blockK m, headCursor := 5, rollbackCursor := 5 },
          "HTTP/1.1".toList ++ '\n' ::
            (List.replicate m 'a' ++ (':' :: ' ' :: 'b' :: '\n' :: '\n' :: [])),
          ['/']) := by
    rw [fastSimpleField_run ['/'] (20 + m + 1) _ _ []
      (by have hl : (['/'] : Str).length = 1 := rfl; omega) (by decide)]
    norm_num
  have h3 : fastVersionField (20 + m + 1)
      { buffer := blockK m, headCursor := 5, rollbackCursor := 5 }
      ("HTTP/1.1".toList ++ '\n' ::
        (List.replicate m 'a' ++ (':' :: ' ' :: 'b' :: '\n' :: '\n' :: []))) []
      = Sum.inr ({ buffer := blockK m, headCursor := 14, rollbackCursor := 14 },
          List.replicate m 'a' ++ (':' :: ' ' :: 'b' :: '\n' :: '\n' :: []),
          "HTTP/1.1".toList) := by
    rw [fastVersionField_run "HTTP/1.1".toList (20 + m + 1) _ _ []
      (by have hl : ("HTTP/1.1".toList).length = 8 := rfl; omega) (by decide)]
    norm_num
  have h4 : fastHeaders (20 + m + 1)
      { buffer := blockK m, headCursor := 14, rollbackCursor := 14 }
      (List.replicate m 'a' ++ (':' :: ' ' :: 'b' :: '\n' :: '\n' :: []))
      { type := ['E', 'T'], path := ['/'], version := "HTTP/1.1".toList,
        headers := [] } []
      = .complete { buffer := blockK m, headCursor := 19 + m,
                    rollbackCursor := 19 + m } reqK := by
    rw [fastHeaders_runA m (20 + m + 1) _ _ _ [] (by omega)]
    rw [show 20 + m + 1 - m = 21 from by omega]
    rw [fastHeaders_tailK]
    rw [show 14 + m + 5 = 19 + m from by omega]
    simp [reqK, Request.setHeader, assocSet]
  rw [FastDeserializeRequest]
  simp only [hlen]
  rw [if_pos trivial, h1]
  simp only [Request.setType]
  rw [if_pos trivial, h2]
  simp only [Request.setPath]
  rw [if_pos trivial, h3]
  simp only [Request.setVersion]
  rw [h4]

lemma cstrChunk_of_no_nul (s : Str) (h : ∀ c ∈ s, c ≠ Char.ofNat 0) :
    cstrChunk s = s := by
  induction s with
  | nil => rfl
  | cons c rest ih =>
      rw [cstrChunk, List.takeWhile_cons]
      rw [if_pos (by simpa using h c (List.mem_cons_self c rest))]
      rw [show List.takeWhile (fun c => decide (c ≠ Char.ofNat 0)) rest
        = cstrChunk rest from rfl]
      rw [ih (fun c1 hc1 => h c1 (List.mem_cons_of_mem c hc1))]

lemma blockK_no_nul (m : Nat) : ∀ c ∈ blockK m, c ≠ Char.ofNat 0 := by
  have hlit1 : ∀ c ∈ "GET / HTTP/1.1\n".toList, c ≠ Char.ofNat 0 := by decide
  have hlit2 : ∀ c ∈ ": b\n".toList, c ≠ Char.ofNat 0 := by decide
  intro c hc
  rw [blockK] at hc
  rcases List.mem_append.mp hc with h | h
  · exact hlit1 c h
  · rcases List.mem_append.mp h with h1 | h1
    · rw [List.eq_of_mem_replicate h1]; decide
    · rcases List.mem_append.mp h1 with h2 | h2
      · exact hlit2 c h2
      · simp only [List.mem_cons, List.not_mem_nil, or_false] at h2
        rw [h2]; decide

/-- The observable outcome of the REQ-stage step on a fresh connection that
receives the whole of `blockK m` in one `recv`: the block parses completely;
the size check compares the final cursor position `19 + m` against 8192, so
the 400 fires exactly when the block is at least `8194 = 20 + 8174` bytes
long. -/
lemma processRequest_blockK (m : Nat) :
    ProcessRequest ConnectionState.init [blockK m]
      = if 8174 ≤ m then
          (fail400
            { ConnectionState.init with
                reqBuffer := { buffer := blockK m, headCursor := 19 + m,
                               rollbackCursor := 19 + m },
                request := reqK }
            "Header size exceeds defined maximum size".toList, true)
        else
          ({ ConnectionState.init with
              reqBuffer := { buffer := blockK m, headCursor := 19 + m,
                             rollbackCursor := 19 + m },
              request := reqK }, true) := by
  rw [ProcessRequest]
  simp only [ConnectionState.init, cstrChunk_of_no_nul (blockK m) (blockK_no_nul m)]
  rw [show ({} : ConnectionState).reqBuffer.append (blockK m)
    = { buffer := blockK m } from by
      simp [Buffer.append]]
  rw [← FastDeserializeRequest_eq, fastDes_blockK m]
  simp only [Buffer.sizeBeforeCursor, maxHeaderSize]
  by_cases hm : 8174 ≤ m
  · rw [if_pos (by omega), if_pos hm]
  · rw [if_neg (by omega), if_neg hm, ProcessRequest]

lemma nextRun_eq_drop_take : ∀ (k : Nat) (b : Buffer),
    nextRun b k = (b.buffer.drop (b.headCursor + 1)).take k := by
  intro k
  induction k with
  | zero => intro b; simp [nextRun]
  | succ k ih =>
      intro b
      cases hdrop : b.buffer.drop (b.headCursor + 1) with
      | nil => rw [nextRun, next_of_drop_nil hdrop]; simp
      | cons c rest =>
          obtain ⟨hnext, hrest⟩ := next_of_drop_cons hdrop
          rw [nextRun, hnext]
          simp only [List.take_succ_cons]
          rw [ih { b with headCursor := b.headCursor + 1 }]
          simp [hrest]

lemma assocLookup_append_self (m : List (Str × Str)) (k v : Str)
    (h : assocLookup m k = none) :
    assocLookup (m ++ [(k, v)]) k = some v := by
  induction m with
  | nil => simp [assocLookup]
  | cons p rest ih =>
      obtain ⟨k1, v1⟩ := p
      rw [assocLookup] at h
      rw [List.cons_append, assocLookup]
      by_cases hk : k1 = k
      · rw [if_pos hk] at h; exact absurd h (by simp)
      · rw [if_neg hk] at h ⊢; exact ih h

lemma assocLookup_append_other (m : List (Str × Str)) (k v k1 : Str)
    (h : k1 ≠ k) :
    assocLookup (m ++ [(k, v)]) k1 = assocLookup m k1 := by
  induction m with
  | nil =>
      rw [List.nil_append, assocLookup, assocLookup,
        if_neg (fun heq => h (Eq.symm heq)), assocLookup]
  | cons p rest ih =>
      obtain ⟨k2, v2⟩ := p
      rw [List.cons_append, assocLookup, assocLookup]
      by_cases hk : k2 = k1
      · rw [if_pos hk, if_pos hk]
      · rw [if_neg hk, if_neg hk]; exact ih

/-! ## Claim theorems -/

/-- C1.  The claim says that after `DeserializeRequest` has consumed a
well-formed header line `K: V`, the request headers map K to V.  On the code
this fails: parsing `"GET / HTTP/1.1\nHost: x\n\n"` completes, but the
resulting header map binds the EMPTY key to `"x"` and holds no entry for
`"Host"`, because the source never appends ordinary key characters to its key
accumulator (the `identifier += c.value()` statement sits after the value
loop, inside the colon branch). -/
theorem c1_header_key_never_inserted :
    DeserializeRequest { buffer := blockHost } {}
      = .complete { buffer := blockHost, headCursor := 23, rollbackCursor := 23 }
          { type := "ET".toList, path := "/".toList, version := "HTTP/1.1".toList,
            headers := [([], "x".toList)] }
    ∧ assocLookup [(([] : Str), "x".toList)] "Host".toList = none
    ∧ assocLookup [(([] : Str), "x".toList)] [] = some "x".toList := by
  refine ⟨?_, by decide, by decide⟩
  decide

/-- C2.  The claim says that when the parser reports the header block
complete, `ProcessRequest` moves the connection to stage FUNC.  On the code
this fails: the parse of `"GET / HTTP/1.1\n\n"` takes the complete exit
(terminating newline consumed and committed), yet the REQ-stage step leaves
the stage at REQ — no branch of `ProcessRequest` ever assigns FUNC, and
`ProcessFunction` has no caller. -/
theorem c2_complete_never_enters_func :
    DeserializeRequest { buffer := "GET / HTTP/1.1\n\n".toList } {}
      = .complete { buffer := "GET / HTTP/1.1\n\n".toList,
                    headCursor := 15, rollbackCursor := 15 }
          { type := "ET".toList, path := "/".toList,
            version := "HTTP/1.1".toList, headers := [] }
    ∧ (ProcessRequest ConnectionState.init ["GET / HTTP/1.1\n\n".toList]).1.stage
        = Stage.REQ
    ∧ (ProcessRequest ConnectionState.init ["GET / HTTP/1.1\n\n".toList]).1.stage
        ≠ Stage.FUNC := by
  refine ⟨by decide, ?_, ?_⟩ <;> decide

/-- C3.  The claim says a missing path yields 404, a missing method 405, and
a registered pair invokes the handler.  On the code the `find` checks are
inverted: for the REGISTERED route GET /ping the function synthesizes the 404
response and moves to RES, and for an unregistered path it falls through to
`routeIter->second` — a dereference of the end iterator (undefined
behaviour). -/
theorem c3_registered_route_gets_404 :
    ProcessFunction pingRoute pingState
      = .normal
          { pingState with
              stage := Stage.RES,
              response :=
                { statusCode := 404, statusReason := "Not Found".toList,
                  headers :=
                    [("Content-Type".toList, "text/plain".toList),
                     ("Content-Length".toList, "57".toList)],
                  body := ("The requested resource /ping was not found "
                    ++ "on this server").toList } }
          true
    ∧ ProcessFunction pingRoute nopeState = .endIterDeref := by
  constructor <;> decide

/-- C4.  The claim says split delivery is observably equivalent to one-shot
delivery.  On the code this fails: parsing `c4part1 ++ c4part2` in one call
binds `""` to `"x"` and `"\n"` to `"y"`, while parsing `c4part1` first (the
parser rolls back to its last commit) and then resuming after `c4part2` is
appended binds only `""` to `"y"` — the key accumulator state (the stray
`"\n"` left from the previous line) is local to one call and is lost across
the call boundary. -/
theorem c4_split_parse_differs_from_one_shot :
    c4whole = c4part1 ++ c4part2
    ∧ DeserializeRequest { buffer := c4whole } {}
        = .complete { buffer := c4whole, headCursor := 25, rollbackCursor := 25 }
            c4reqOne
    ∧ DeserializeRequest { buffer := c4part1 } {}
        = .more { buffer := c4part1, headCursor := 19, rollbackCursor := 19 }
            c4reqMid
    ∧ DeserializeRequest
          (({ buffer := c4part1, headCursor := 19, rollbackCursor := 19 }
            : Buffer).append c4part2) c4reqMid
        = .complete { buffer := c4whole, headCursor := 25, rollbackCursor := 25 }
            c4reqSplit
    ∧ c4reqOne ≠ c4reqSplit
    ∧ assocLookup c4reqOne.headers ['\n'] = some "y".toList
    ∧ assocLookup c4reqSplit.headers ['\n'] = none := by
  refine ⟨by decide, ?_, ?_, ?_, by decide, by decide, by decide⟩ <;> decide

/-- C5 (counterexample).  The claim says `0 ≤ rollback ≤ head ≤ len` holds
after every public buffer operation.  The sequence assign "ab"; next; commit;
reset violates it: `reset` zeroes only the head cursor, leaving the rollback
cursor at 1 > 0. -/
theorem c5_cursor_invariant_counterexample :
    ¬ bufferInv (applyOps Buffer.init
      [.assign "ab".toList, .next, .commit, .reset]) := by decide

/-- C5 (amended).  The invariant `rollback ≤ head ≤ len` is preserved by
assign, append, next, rollback and commit — the operations the request
parser uses — while reset, set and increment (which can move the head below
the rollback cursor) still preserve the weaker bound that both cursors stay
within `[0, len]`. -/
theorem c5_cursor_invariant_amended :
    (∀ (b : Buffer) (ops : List BufOp), bufferInv b →
        (∀ op ∈ ops, op.cursorMonotone) → bufferInv (applyOps b ops))
    ∧ (∀ (b : Buffer) (ops : List BufOp), bufferWeakInv b →
        bufferWeakInv (applyOps b ops)) :=
  ⟨fun b ops hb hops => applyOps_inv ops b hb hops,
   fun b ops hb => applyOps_weakInv ops b hb⟩

/-- C5 (witness). -/
theorem c5_cursor_invariant_amended_witness :
    bufferInv (applyOps Buffer.init [.assign "ab".toList, .next, .commit])
    ∧ bufferWeakInv (applyOps Buffer.init
        [.assign "ab".toList, .next, .commit, .reset]) :=
  ⟨c5_cursor_invariant_amended.1 Buffer.init
      [.assign "ab".toList, .next, .commit] (by decide) (by decide),
   c5_cursor_invariant_amended.2 Buffer.init
      [.assign "ab".toList, .next, .commit, .reset] (by decide)⟩

/-- C6.  The claim says a RES-stage connection is processed only on writable
readiness.  On the code the RES case of the dispatch tests `EPOLLIN` (the
comment above it says EPOLLOUT): a readable-only event runs
`ProcessResponse`, and a writable-only event does nothing. -/
theorem c6_res_dispatch_keyed_on_readable :
    dispatchConnEvent (some Stage.RES)
      { epollerr := false, epollhup := false, epollin := true, epollout := false }
      = EventAction.runProcessResponse
    ∧ dispatchConnEvent (some Stage.RES)
      { epollerr := false, epollhup := false, epollin := false, epollout := true }
      = EventAction.idle := by decide

/-- C7 (counterexample).  The claim says a header block of 8193 bytes is
failed with 400.  On the code the block `blockK 8173` of exactly 8193 bytes
is accepted: the size check compares the parser's final cursor position
(8192, one less than the byte count, since `next()` never visits index 0)
against the 8192 maximum, and `8192 > 8192` is false. -/
theorem c7_8193_byte_block_accepted_counterexample :
    (blockK 8173).length = 8192 + 1
    ∧ (ProcessRequest ConnectionState.init [blockK 8173]).1.stage = Stage.REQ
    ∧ (ProcessRequest ConnectionState.init [blockK 8173]).1.response.statusCode
        ≠ 400 := by
  refine ⟨by rw [blockK_length], ?_, ?_⟩
  · rw [processRequest_blockK 8173, if_neg (by omega)]
    rfl
  · rw [processRequest_blockK 8173, if_neg (by omega)]
    decide

/-- C7 (amended).  A header block of exactly 8192 bytes is accepted, and so
is one of 8193 bytes; the 400 response fires exactly when the block size
reaches 8194 bytes, because the check compares the final head cursor — which
lags the block size by one — against the 8192 maximum. -/
theorem c7_header_size_boundary_amended (m : Nat) :
    ((ProcessRequest ConnectionState.init [blockK m]).1.stage,
     (ProcessRequest ConnectionState.init [blockK m]).1.response.statusCode)
      = if (blockK m).length ≤ 8193 then (Stage.REQ, 200)
        else (Stage.RES, 400) := by
  rw [processRequest_blockK m, blockK_length]
  by_cases hm : 8174 ≤ m
  · rw [if_pos hm, if_neg (by omega)]
    rfl
  · rw [if_neg hm, if_pos (by omega)]
    rfl

/-- C8.  The claim says `getDate` returns exactly the time point `setDate`
stored.  On the code this holds only when the process's local timezone is
UTC: `setDate` formats the GMT fields (`gmtime`) but `getDate` converts the
parsed fields back with `mktime`, which interprets them as LOCAL time — in a
UTC+1 environment the round trip of the epoch returns `-3600`. -/
theorem c8_date_roundtrip_shifted_by_timezone :
    Response.getDate 0 (Response.init.setDate 0) = some 0
    ∧ Response.getDate 3600 (Response.init.setDate 0) = some (-3600)
    ∧ Response.getDate 3600 (Response.init.setDate 0) ≠ some 0
    ∧ Response.getDate 0 (Response.init.setDate 1700000000) = some 1700000000
    ∧ Response.getDate 3600 (Response.init.setDate 1700000000)
        = some 1699996400 := by
  refine ⟨?_, ?_, ?_, ?_, ?_⟩ <;> decide

/-- C9.  `next()` from head position h yields the byte at h+1, and only when
`h + 1 < len`; consequently a sequence of `next()` calls over a freshly
assigned buffer returns exactly the bytes at positions 1, 2, … — the byte at
index 0 is never produced and is observable only through `current()` — and
the request parser, which advances exclusively via `next()`, parses the
method of `"GET / HTTP/1.1\n\n"` as `"ET"`. -/
theorem c9_next_skips_first_byte :
    (∀ b : Buffer, b.next
        = if b.headCursor + 1 < b.buffer.length
          then (some (b.buffer.getD (b.headCursor + 1) (Char.ofNat 0)),
                { b with headCursor := b.headCursor + 1 })
          else (none, b))
    ∧ (∀ (s : Str) (k : Nat), nextRun (Buffer.init.assign s) k = s.tail.take k)
    ∧ (∀ (c : Char) (rest : Str), (Buffer.init.assign (c :: rest)).current = c)
    ∧ (desOutReq (DeserializeRequest { buffer := "GET / HTTP/1.1\n\n".toList } {})).type
        = "ET".toList := by
  refine ⟨?_, ?_, ?_, by decide⟩
  · intro b
    rw [Buffer.next]
    split
    next h => rw [List.getD_eq_getElem _ _ h]; rfl
    next h => rfl
  · intro s k
    rw [nextRun_eq_drop_take]
    simp [Buffer.assign, Buffer.init, List.drop_one]
  · intro c rest
    rfl

/-- C10.  `Request::getHeader` is `return headers[key];`: for an absent key
it returns the empty string AND inserts `(key, "")` into the header map,
leaving the method, path, version and all other header entries unchanged. -/
theorem c10_getHeader_inserts_missing_key (r : Request) (k : Str)
    (h : assocLookup r.headers k = none) :
    (r.getHeader k).1 = []
    ∧ assocLookup (r.getHeader k).2.headers k = some []
    ∧ (∀ k1, k1 ≠ k →
        assocLookup (r.getHeader k).2.headers k1 = assocLookup r.headers k1)
    ∧ (r.getHeader k).2.type = r.type
    ∧ (r.getHeader k).2.path = r.path
    ∧ (r.getHeader k).2.version = r.version := by
  rw [Request.getHeader, h]
  exact ⟨rfl, assocLookup_append_self r.headers k [] h,
    fun k1 hk1 => assocLookup_append_other r.headers k [] k1 hk1,
    rfl, rfl, rfl⟩

/-- C10 (witness). -/
theorem c10_getHeader_inserts_missing_key_witness :
    assocLookup (Request.init).headers "Host".toList = none
    ∧ ((Request.init).getHeader "Host".toList).1 = []
    ∧ assocLookup ((Request.init).getHeader "Host".toList).2.headers
        "Host".toList = some [] :=
  ⟨rfl,
   (c10_getHeader_inserts_missing_key Request.init "Host".toList rfl).1,
   (c10_getHeader_inserts_missing_key Request.init "Host".toList rfl).2.1⟩

end SimpleHTTP
